import Mathlib

/-!
Verification development for the mstar-data-dashboard repository.

The repository has two Python source files:
  * `fetch_isins.py` — the acquisition pipeline (classification with
    fund→stock fallback, resilient per-method collection, JSON/CSV export);
  * `streamlit_app.py` — the dashboard (value-tree flattening, quarterly
    time-series reconstruction, series rebasing for comparison charts).

The embedding below models JSON-like Python values as the inductive `JVal`.
Objects are association lists `List (String × JVal)` in insertion order;
values arising from Python dicts always have pairwise-distinct keys, which
theorems assume explicitly (as `Nodup` hypotheses) where it matters.
-/

namespace Mstar

/-- A JSON-like Python value.  `int` and `float` are kept apart because the
source distinguishes them (`isinstance(yr, int)`); Python's `bool <: int`
subtyping is not modelled — `bool` is a separate scalar here. -/
inductive JVal where
  | null
  | bool (b : Bool)
  | int (n : Int)
  | float (q : ℚ)
  | str (s : String)
  | arr (xs : List JVal)
  | obj (fields : List (String × JVal))

/-- `d.get(k)` / `d[k]` of a Python dict: first entry with key `k`. -/
def dictGet (d : List (String × JVal)) (k : String) : Option JVal :=
  match d with
  | [] => none
  | (k1, v1) :: rest => if k1 = k then some v1 else dictGet rest k

/-- `d[k] = v` on a Python dict: replace in place if the key is present
(keeping its position), otherwise append at the end. -/
def dictSet (d : List (String × JVal)) (k : String) (v : JVal) :
    List (String × JVal) :=
  match d with
  | [] => [(k, v)]
  | (k1, v1) :: rest =>
    if k1 = k then (k1, v) :: rest else (k1, v1) :: dictSet rest k v

/-- Python dict merge `(..base.., **extra)`: insert `extra`'s entries in
order into `base`, later entries overriding earlier keys. -/
def pyUpdate (base extra : List (String × JVal)) : List (String × JVal) :=
  extra.foldl (fun acc p => dictSet acc p.1 p.2) base

/-- Python truthiness of a JSON-like value. -/
def pyTruthy : JVal → Bool
  | .null => false
  | .bool b => b
  | .int n => n != 0
  | .float q => q != 0
  | .str s => !s.isEmpty
  | .arr xs => !xs.isEmpty
  | .obj fields => !fields.isEmpty

/-- Python `x or d`. -/
def pyOr (x d : JVal) : JVal := if pyTruthy x then x else d

theorem dictGet_mem {d : List (String × JVal)} {k : String} {v : JVal}
    (h : dictGet d k = some v) : (k, v) ∈ d := by
  induction d with
  | nil => simp [dictGet] at h
  | cons p rest ih =>
    obtain ⟨k1, v1⟩ := p
    by_cases hk : k1 = k
    · subst hk
      simp [dictGet] at h
      subst h
      exact List.mem_cons_self _ _
    · simp [dictGet, hk] at h
      exact List.mem_cons_of_mem _ (ih h)

theorem one_le_sizeOf_list {α : Type} [SizeOf α] (l : List α) : 1 ≤ sizeOf l := by
  cases l with
  | nil => simp
  | cons a t => simp; omega

theorem sizeOf_filter_le {α : Type} [SizeOf α] (p : α → Bool) (l : List α) :
    sizeOf (l.filter p) ≤ sizeOf l := by
  induction l with
  | nil => simp
  | cons a t ih =>
    by_cases hp : p a
    · simp [List.filter, hp]
      omega
    · simp only [List.filter, hp]
      simp
      omega

theorem sizeOf_snd_lt_of_mem {d : List (String × JVal)} {k : String} {v : JVal}
    (h : (k, v) ∈ d) : sizeOf v < sizeOf d := by
  have h1 := List.sizeOf_lt_of_mem h
  simp at h1
  omega

/-- The entry list of the value under key `properties` when that value is a
dict (the list the expand rule of `flatten_values` iterates over). -/
def propsOf (fields : List (String × JVal)) : List (String × JVal) :=
  match dictGet fields "properties" with
  | some (.obj pfs) => pfs
  | _ => []

theorem sizeOf_propsOf_le (fields : List (String × JVal)) :
    sizeOf (propsOf fields) ≤ sizeOf fields := by
  unfold propsOf
  cases h : dictGet fields "properties" with
  | none =>
    simp
    exact one_le_sizeOf_list fields
  | some v =>
    cases v with
    | obj pfs =>
      have hm := sizeOf_snd_lt_of_mem (dictGet_mem h)
      simp at hm ⊢
      omega
    | null => simp; exact one_le_sizeOf_list fields
    | bool b => simp; exact one_le_sizeOf_list fields
    | int n => simp; exact one_le_sizeOf_list fields
    | float q => simp; exact one_le_sizeOf_list fields
    | str s => simp; exact one_le_sizeOf_list fields
    | arr xs => simp; exact one_le_sizeOf_list fields

/-- Guard of the collapse rule of `flatten_values`: in Python,
`set(obj.keys()) == set(["value"])`. -/
def collapse_guard (fields : List (String × JVal)) : Bool :=
  !fields.isEmpty && fields.all (fun p => p.1 == "value")

/-- `isinstance(obj.get("properties"), dict)`. -/
def props_is_dict (fields : List (String × JVal)) : Bool :=
  match dictGet fields "properties" with
  | some (.obj _) => true
  | _ => false

/-- Guard of the expand rule of `flatten_values`: the object has a `value`
key, its `properties` value is a dict, and it has at most 3 entries. -/
def expand_guard (fields : List (String × JVal)) : Bool :=
  (dictGet fields "value").isSome && props_is_dict fields
    && decide (fields.length ≤ 3)

mutual

/-- `flatten_values` from `streamlit_app.py` (lines 38-49): collapse a dict
whose only key is `value` to that value (not re-flattened by the source!);
expand a small dict holding `value` plus a `properties` dict into flat
siblings with `prop_`-prefixed keys; otherwise recurse elementwise. -/
def flatten_values (v : JVal) : JVal :=
  match v with
  | .obj fields =>
    if collapse_guard fields then
      (dictGet fields "value").getD .null
    else if expand_guard fields then
      .obj (pyUpdate
        (flattenFields (fields.filter (fun p => !(p.1 == "properties"))))
        ((flattenFields (propsOf fields)).map
          (fun p => ("prop_" ++ p.1, p.2))))
    else
      .obj (flattenFields fields)
  | .arr xs => .arr (flattenList xs)
  | x => x
termination_by sizeOf v
decreasing_by
  · have h := sizeOf_filter_le (fun p => !(p.1 == "properties")) fields
    simp
    omega
  · have h := sizeOf_propsOf_le fields
    simp
    omega
  · simp
  · simp

/-- Elementwise flattening of a dict's entries. -/
def flattenFields (fs : List (String × JVal)) : List (String × JVal) :=
  match fs with
  | [] => []
  | (k, v) :: rest => (k, flatten_values v) :: flattenFields rest
termination_by sizeOf fs
decreasing_by
  · simp <;> omega
  · simp <;> omega

/-- Elementwise flattening of a list's elements. -/
def flattenList (xs : List JVal) : List JVal :=
  match xs with
  | [] => []
  | x :: rest => flatten_values x :: flattenList rest
termination_by sizeOf xs
decreasing_by
  · simp <;> omega
  · simp <;> omega

end

mutual

/-- Whether a value contains, at any depth, a dict with a key named
`value` — the containers the collapse/expand rules of `flatten_values`
react to. -/
def hasValueKey : JVal → Bool
  | .obj fs => hasValueKeyFields fs
  | .arr xs => hasValueKeyList xs
  | _ => false
termination_by v => sizeOf v
decreasing_by
  · simp <;> omega
  · simp <;> omega

/-- `hasValueKey` over a dict's entries. -/
def hasValueKeyFields : List (String × JVal) → Bool
  | [] => false
  | (k, v) :: fs => k == "value" || hasValueKey v || hasValueKeyFields fs
termination_by fs => sizeOf fs
decreasing_by
  · simp <;> omega
  · simp <;> omega

/-- `hasValueKey` over a list's elements. -/
def hasValueKeyList : List JVal → Bool
  | [] => false
  | x :: xs => hasValueKey x || hasValueKeyList xs
termination_by xs => sizeOf xs
decreasing_by
  · simp <;> omega
  · simp <;> omega

end

/-! ## The fetch pipeline (`fetch_isins.py`)

The external `mstarpy` provider is an opaque collaborator.  It is modelled
as a bundle of functions from identifiers (and method names) to outcomes:
`Except.error msg` models a raised exception with message `msg`,
`Except.ok v` a returned value.  Determinism within one run is the only
assumption, matching the sequential, no-retry pipeline. -/

/-- The provider capabilities used by `fetch_isins.py`: binding an
identifier as a fund or a stock (`ms.Funds(isin)` / `ms.Stock(isin)`), the
reference lookup `fund.dataPoint(["isin","name","previousClosePrice"])`,
the per-method catalog calls, and `stock.overview()`. -/
structure Provider where
  fundBind : String → Except String Unit
  fundDataPoint : String → Except String JVal
  fundMethod : String → String → Except String JVal
  stockBind : String → Except String Unit
  stockMethod : String → String → Except String JVal
  stockOverview : String → Except String JVal

/-- The method catalog (`load_methods` result): two ordered name lists. -/
structure MethodsCfg where
  fund_methods : List String
  stock_methods : List String

/-- `safe_call` (lines 61-66): run one zero-argument provider operation;
any raised exception becomes the inline marker dict with key `_error`. -/
def safe_call (r : Except String JVal) : JVal :=
  match r with
  | .ok v => v
  | .error e => .obj [("_error", .str e)]

/-- The `for m in methods: out[m] = safe_call(obj, m)` loop shared by
`fetch_full_fund` and `fetch_full_stock`, with Python dict assignment
semantics (`dictSet`). -/
def runMethods (f : String → Except String JVal)
    (base : List (String × JVal)) (ms : List String) :
    List (String × JVal) :=
  ms.foldl (fun acc m => dictSet acc m (safe_call (f m))) base

/-- `fetch_full_fund` (lines 69-78).  Binding and the `dataPoint` reference
lookup may raise (propagated); each catalog method goes through
`safe_call`.  `or` applies Python truthiness to the `dataPoint` result. -/
def fetch_full_fund (p : Provider) (isin : String) (methods : List String) :
    Except String JVal := do
  let _ ← p.fundBind isin
  let dp ← p.fundDataPoint isin
  let base : List (String × JVal) :=
    [("_class", .str "fund"), ("isin", .str isin),
     ("dataPoint", pyOr dp (.obj []))]
  pure (.obj (runMethods (p.fundMethod isin) base methods))

/-- `fetch_full_stock` (lines 81-86). -/
def fetch_full_stock (p : Provider) (isin : String) (methods : List String) :
    Except String JVal := do
  let _ ← p.stockBind isin
  let base : List (String × JVal) :=
    [("_class", .str "stock"), ("isin", .str isin)]
  pure (.obj (runMethods (p.stockMethod isin) base methods))

/-- The reduced-mode fund attempt (lines 100-104): bind, look up the three
reference attributes; `data["source"] = "fund"` raises a `TypeError` if the
(or-defaulted) result is not a dict; finally the record is the merge of the
base entry `isin` with the provider dict, provider entries overriding. -/
def fetch_reduced_fund (p : Provider) (isin : String) : Except String JVal := do
  let _ ← p.fundBind isin
  let dp ← p.fundDataPoint isin
  match pyOr dp (.obj []) with
  | .obj fields =>
    pure (.obj (pyUpdate [("isin", .str isin)]
      (dictSet fields "source" (.str "fund"))))
  | _ => .error "TypeError: object does not support item assignment"

/-- The reduced-mode stock attempt (lines 107-114): bind, call
`stock.overview()`; `name` is the overview's `name` entry when the
overview is a dict, else Python `None`. -/
def fetch_reduced_stock (p : Provider) (isin : String) : Except String JVal := do
  let _ ← p.stockBind isin
  let ov ← p.stockOverview isin
  let name : JVal :=
    match pyOr ov (.obj []) with
    | .obj fields => (dictGet fields "name").getD .null
    | _ => .null
  pure (.obj [("isin", .str isin), ("name", name), ("source", .str "stock")])

/-- `fetch_info_for_isin` (lines 89-116): full mode tries the full fund
record, then the full stock record, then an `unknown` record carrying the
stock-path failure message; reduced mode does the same with the
lightweight attempts.  Total by construction: it never raises. -/
def fetch_info_for_isin (p : Provider) (isin : String) (full : Bool)
    (cfg : MethodsCfg) : JVal :=
  if full then
    match fetch_full_fund p isin cfg.fund_methods with
    | .ok r => r
    | .error _ =>
      match fetch_full_stock p isin cfg.stock_methods with
      | .ok r => r
      | .error e =>
        .obj [("isin", .str isin), ("_class", .str "unknown"),
              ("_error", .str e)]
  else
    match fetch_reduced_fund p isin with
    | .ok r => r
    | .error _ =>
      match fetch_reduced_stock p isin with
      | .ok r => r
      | .error e =>
        .obj [("isin", .str isin), ("error", .str e),
              ("source", .str "unknown")]

/-- The result-accumulation loop of `main` (lines 150-153): one record per
identifier, in input order. -/
def mainResults (p : Provider) (isins : List String) (full : Bool)
    (cfg : MethodsCfg) : List JVal :=
  isins.map (fun isin => fetch_info_for_isin p isin full cfg)

/-- A concrete provider for witnesses: fund binding and reference lookup
succeed, method `A` raises, every other method returns 1, stock lookups
raise. -/
def provider_ok : Provider where
  fundBind := fun _ => .ok ()
  fundDataPoint := fun _ => .ok (.obj [("name", .str "F")])
  fundMethod := fun _ m => if m = "A" then .error "boom" else .ok (.int 1)
  stockBind := fun _ => .error "no stock"
  stockMethod := fun _ _ => .ok .null
  stockOverview := fun _ => .error "no overview"

/-- A concrete provider whose lookups all raise. -/
def provider_down : Provider where
  fundBind := fun _ => .error "fund bind failed"
  fundDataPoint := fun _ => .error "no dp"
  fundMethod := fun _ _ => .error "no method"
  stockBind := fun _ => .error "stock bind failed"
  stockMethod := fun _ _ => .error "no method"
  stockOverview := fun _ => .error "no overview"

/-- A concrete provider whose reduced-mode reference lookup injects a
`_class` key of its own. -/
def provider_class_inject : Provider where
  fundBind := fun _ => .ok ()
  fundDataPoint := fun _ => .ok (.obj [("_class", .str "evil")])
  fundMethod := fun _ _ => .ok .null
  stockBind := fun _ => .error "no stock"
  stockMethod := fun _ _ => .ok .null
  stockOverview := fun _ => .error "no overview"

/-- A concrete provider whose reduced-mode reference lookup carries its
own `isin` entry, different from the query identifier. -/
def provider_isin_override : Provider where
  fundBind := fun _ => .ok ()
  fundDataPoint := fun _ => .ok (.obj [("isin", .str "OTHER")])
  fundMethod := fun _ _ => .ok .null
  stockBind := fun _ => .error "no stock"
  stockMethod := fun _ _ => .ok .null
  stockOverview := fun _ => .error "no overview"

/-! ## CSV export (`write_csv`, lines 124-130)

`csv.DictWriter` rows are modelled as lists of cells where `none` is a
field absent from the record, rendered by `DictWriter` as its empty-string
`restval`. -/

/-- Lexicographic comparison of char lists by code point — the string
order Python's `sorted` uses. -/
def charListLE : List Char → List Char → Bool
  | [], _ => true
  | _ :: _, [] => false
  | a :: as, b :: bs =>
    if a.toNat < b.toNat then true
    else if b.toNat < a.toNat then false
    else charListLE as bs

/-- Lexicographic string comparison by code point. -/
def strLE (a b : String) : Bool := charListLE a.data b.data

/-- Insertion into a `strLE`-sorted list. -/
def insertSorted (s : String) : List String → List String
  | [] => [s]
  | t :: ts => if strLE s t then s :: t :: ts else t :: insertSorted s ts

/-- Python `sorted` on a list of strings (insertion sort). -/
def sortStrings (l : List String) : List String := l.foldr insertSorted []

/-- `fieldnames = sorted(set of every key of every row)` (line 125). -/
def csvFields (rows : List (List (String × JVal))) : List String :=
  sortStrings ((rows.foldl (fun acc r => acc ++ r.map Prod.fst) []).dedup)

/-- One `DictWriter.writerow`: a cell per field, `none` when absent. -/
def csvRow (fields : List String) (row : List (String × JVal)) :
    List (Option JVal) :=
  fields.map (fun f => dictGet row f)

/-- `write_csv` (lines 124-130): the header and the data rows. -/
def write_csv (rows : List (List (String × JVal))) :
    List String × List (List (Option JVal)) :=
  (csvFields rows, rows.map (csvRow (csvFields rows)))

/-! ## Time-series reconstruction (`_price_series_from_graphdata`,
`streamlit_app.py` lines 85-114) and rebasing (`render_compare`) -/

/-- One reconstructed point: year, quarter index (1..4) and the numeric
value.  `pd.Timestamp` dates are represented by the (year, quarter) pair
they are synthesized from, rendered by `dateOf`; chronological order of the
synthesized quarter-end dates is exactly the lexicographic (year, quarter)
order. -/
structure TSPoint where
  yr : Int
  q : Nat
  price : ℚ
  deriving DecidableEq

/-- The fixed quarter-end month/day table of line 106. -/
def monthDay (q : Nat) : String :=
  if q = 1 then "03-31"
  else if q = 2 then "06-30"
  else if q = 3 then "09-30"
  else "12-31"

/-- The synthesized date string `f"{yr}-{month_day}"` of line 107. -/
def dateOf (p : TSPoint) : String :=
  toString p.yr ++ "-" ++ monthDay p.q

/-- `pd.to_numeric(val, errors="coerce")` restricted to the scalar shapes
the model distinguishes: ints, floats and bools convert (Python bools are
numeric), everything else coerces to NaN and is dropped.  Parsing of
numeric strings is not modelled; a string entry is treated as NaN. -/
def toNumericCoerce : JVal → Option ℚ
  | .int n => some (n : ℚ)
  | .float q => some q
  | .bool b => some (if b then 1 else 0)
  | _ => none

/-- The quarter keys iterated by line 101, with their 1-based indices. -/
def qKeys : List (Nat × String) :=
  [(1, "naQ1"), (2, "naQ2"), (3, "naQ3"), (4, "naQ4")]

/-- The points contributed by one yearly row `r` (lines 95-108): skipped
unless `r` is a dict with an int `yr`; per quarter, a missing/None entry is
skipped and a non-numeric one is coerced to NaN and dropped (the source
appends it and `dropna()` removes it — same net effect). -/
def rowPoints (r : JVal) : List TSPoint :=
  match r with
  | .obj fields =>
    match dictGet fields "yr" with
    | some (.int y) =>
      qKeys.filterMap (fun qk =>
        match dictGet fields qk.2 with
        | none => none
        | some .null => none
        | some v => (toNumericCoerce v).map (fun pr => ⟨y, qk.1, pr⟩))
    | _ => []
  | _ => []

/-- Sort key of `sort_values("date")`: quarter-end dates order as
`yr * 4 + q`. -/
def tsKey (p : TSPoint) : Int := p.yr * 4 + p.q

/-- The chronological order used for sorting the reconstructed series. -/
def tsLE (a b : TSPoint) : Prop := tsKey a ≤ tsKey b

instance : DecidableRel tsLE := fun a b => inferInstanceAs (Decidable (tsKey a ≤ tsKey b))

instance : IsTotal TSPoint tsLE := ⟨fun a b => le_total (tsKey a) (tsKey b)⟩

instance : IsTrans TSPoint tsLE := ⟨fun _ _ _ h1 h2 => le_trans h1 h2⟩

/-- `_price_series_from_graphdata` (lines 85-114): guard the nesting shape
(`graphData` dict, non-empty `data` list), collect the per-row points, and
return the date-sorted series, or `none` when nothing remains.  The source
builds a DataFrame including NaN prices and then applies
`dropna().sort_values("date")` with an emptiness check; collecting only
the numeric points first is the same function. -/
def price_series_from_graphdata (current : JVal) : Option (List TSPoint) :=
  match current with
  | .obj cf =>
    match dictGet cf "graphData" with
    | some (.obj gf) =>
      match dictGet gf "data" with
      | some (.arr rows) =>
        if rows.isEmpty then none
        else
          let records := rows.foldr (fun r acc => rowPoints r ++ acc) []
          if records.isEmpty then none
          else some (List.insertionSort tsLE records)
      | _ => none
    | _ => none
  | _ => none

/-- The relative-performance rebasing of `render_compare` (lines 305-324):
skip an empty series, skip when the first price is 0, otherwise divide
every price by the first and scale by 100. -/
def rebaseSeries (prices : List ℚ) : Option (List ℚ) :=
  match prices with
  | [] => none
  | p0 :: _ =>
    if p0 = 0 then none
    else some (prices.map (fun pr => pr / p0 * 100))

/-- The fund-vs-benchmark series of `render_compare` (lines 332-336): same
division, but with no guard on a zero first price. -/
def benchSeries (prices : List ℚ) : Option (List ℚ) :=
  match prices with
  | [] => none
  | p0 :: _ => some (prices.map (fun pr => pr / p0 * 100))

/-! ## Lemmas about the Python dict model -/

theorem dictGet_dictSet_self (d : List (String × JVal)) (k : String) (v : JVal) :
    dictGet (dictSet d k v) k = some v := by
  induction d with
  | nil => simp [dictSet, dictGet]
  | cons p rest ih =>
    obtain ⟨k1, v1⟩ := p
    by_cases hk : k1 = k
    · simp [dictSet, dictGet, hk]
    · simp [dictSet, dictGet, hk, ih]

theorem dictGet_dictSet_ne (d : List (String × JVal)) {k k' : String}
    (v : JVal) (h : k' ≠ k) :
    dictGet (dictSet d k v) k' = dictGet d k' := by
  have h2 : k ≠ k' := Ne.symm h
  induction d with
  | nil => simp [dictSet, dictGet, h2]
  | cons p rest ih =>
    obtain ⟨k1, v1⟩ := p
    by_cases hk : k1 = k
    · subst hk
      simp [dictSet, dictGet, h2]
    · simp [dictSet, dictGet, hk, ih]

theorem dictGet_eq_none_iff (d : List (String × JVal)) (k : String) :
    dictGet d k = none ↔ k ∉ d.map Prod.fst := by
  induction d with
  | nil => simp [dictGet]
  | cons p rest ih =>
    obtain ⟨k1, v1⟩ := p
    by_cases hk : k1 = k
    · subst hk
      simp [dictGet]
    · have h1 : dictGet ((k1, v1) :: rest) k = dictGet rest k := by
        simp [dictGet, hk]
      rw [h1, ih, List.map_cons, List.mem_cons, not_or]
      constructor
      · exact fun h => ⟨fun he => hk he.symm, h⟩
      · exact fun h => h.2

theorem dictGet_isSome_iff (d : List (String × JVal)) (k : String) :
    (dictGet d k).isSome = true ↔ k ∈ d.map Prod.fst := by
  rw [← not_iff_not, ← dictGet_eq_none_iff]
  simp [Option.isSome_iff_ne_none]

theorem mem_keys_dictSet (d : List (String × JVal)) (k k' : String) (v : JVal) :
    k' ∈ (dictSet d k v).map Prod.fst ↔ k' ∈ d.map Prod.fst ∨ k' = k := by
  induction d with
  | nil => simp [dictSet]
  | cons p rest ih =>
    obtain ⟨k1, v1⟩ := p
    by_cases hk : k1 = k
    · subst hk
      simp [dictSet]
      tauto
    · simp [dictSet, hk, ih]
      tauto

theorem keys_dictSet_of_mem (d : List (String × JVal)) {k : String} (v : JVal)
    (h : k ∈ d.map Prod.fst) :
    (dictSet d k v).map Prod.fst = d.map Prod.fst := by
  induction d with
  | nil => simp at h
  | cons p rest ih =>
    obtain ⟨k1, v1⟩ := p
    by_cases hk : k1 = k
    · simp [dictSet, hk]
    · rw [List.map_cons, List.mem_cons] at h
      rcases h with h | h
      · exact absurd h.symm hk
      · simp [dictSet, hk, ih h]

theorem keys_dictSet_of_not_mem (d : List (String × JVal)) {k : String} (v : JVal)
    (h : k ∉ d.map Prod.fst) :
    (dictSet d k v).map Prod.fst = d.map Prod.fst ++ [k] := by
  induction d with
  | nil => simp [dictSet]
  | cons p rest ih =>
    obtain ⟨k1, v1⟩ := p
    rw [List.map_cons, List.mem_cons, not_or] at h
    have hk : k1 ≠ k := fun he => h.1 he.symm
    simp [dictSet, hk, ih h.2]

theorem nodup_keys_dictSet (d : List (String × JVal)) (k : String) (v : JVal)
    (h : (d.map Prod.fst).Nodup) :
    ((dictSet d k v).map Prod.fst).Nodup := by
  by_cases hm : k ∈ d.map Prod.fst
  · rw [keys_dictSet_of_mem d v hm]
    exact h
  · rw [keys_dictSet_of_not_mem d v hm]
    simp [List.nodup_append, h, hm]

theorem dictGet_pyUpdate_not_mem {extra : List (String × JVal)}
    (base : List (String × JVal)) {k : String}
    (h : k ∉ extra.map Prod.fst) :
    dictGet (pyUpdate base extra) k = dictGet base k := by
  induction extra generalizing base with
  | nil => rfl
  | cons p rest ih =>
    obtain ⟨k1, v1⟩ := p
    rw [List.map_cons, List.mem_cons, not_or] at h
    have h1 : pyUpdate base ((k1, v1) :: rest)
        = pyUpdate (dictSet base k1 v1) rest := rfl
    rw [h1, ih _ h.2, dictGet_dictSet_ne _ _ h.1]

theorem dictGet_pyUpdate_mem {extra : List (String × JVal)}
    (base : List (String × JVal)) {k : String} {v : JVal}
    (hnd : (extra.map Prod.fst).Nodup) (hm : (k, v) ∈ extra) :
    dictGet (pyUpdate base extra) k = some v := by
  induction extra generalizing base with
  | nil => simp at hm
  | cons p rest ih =>
    obtain ⟨k1, v1⟩ := p
    rw [List.map_cons, List.nodup_cons] at hnd
    have h1 : pyUpdate base ((k1, v1) :: rest)
        = pyUpdate (dictSet base k1 v1) rest := rfl
    rcases List.mem_cons.mp hm with h | h
    · injection h with hk hv
      subst hk
      subst hv
      rw [h1, dictGet_pyUpdate_not_mem _ hnd.1, dictGet_dictSet_self]
    · rw [h1, ih _ hnd.2 h]

theorem mem_keys_pyUpdate (base extra : List (String × JVal)) (k : String) :
    k ∈ (pyUpdate base extra).map Prod.fst ↔
      k ∈ base.map Prod.fst ∨ k ∈ extra.map Prod.fst := by
  induction extra generalizing base with
  | nil => simp [pyUpdate]
  | cons p rest ih =>
    obtain ⟨k1, v1⟩ := p
    have h1 : pyUpdate base ((k1, v1) :: rest)
        = pyUpdate (dictSet base k1 v1) rest := rfl
    rw [h1, ih, mem_keys_dictSet, List.map_cons, List.mem_cons]
    tauto

theorem dictGet_runMethods_not_mem (f : String → Except String JVal)
    (base : List (String × JVal)) {ms : List String} {k : String}
    (h : k ∉ ms) :
    dictGet (runMethods f base ms) k = dictGet base k := by
  induction ms generalizing base with
  | nil => rfl
  | cons m rest ih =>
    rw [List.mem_cons, not_or] at h
    have h1 : runMethods f base (m :: rest)
        = runMethods f (dictSet base m (safe_call (f m))) rest := rfl
    rw [h1, ih _ h.2, dictGet_dictSet_ne _ _ h.1]

theorem dictGet_runMethods_mem (f : String → Except String JVal)
    (base : List (String × JVal)) {ms : List String} {k : String}
    (h : k ∈ ms) :
    dictGet (runMethods f base ms) k = some (safe_call (f k)) := by
  induction ms generalizing base with
  | nil => simp at h
  | cons m rest ih =>
    have h1 : runMethods f base (m :: rest)
        = runMethods f (dictSet base m (safe_call (f m))) rest := rfl
    by_cases hr : k ∈ rest
    · rw [h1, ih _ hr]
    · rcases List.mem_cons.mp h with he | he
      · subst he
        rw [h1, dictGet_runMethods_not_mem _ _ hr, dictGet_dictSet_self]
      · exact absurd he hr

/-! ## Lemmas about the string insertion sort used for CSV headers -/

theorem charListLE_total (a b : List Char) :
    charListLE a b = true ∨ charListLE b a = true := by
  induction a generalizing b with
  | nil => left; rfl
  | cons x xs ih =>
    cases b with
    | nil => right; rfl
    | cons y ys =>
      by_cases h1 : x.toNat < y.toNat
      · left
        simp [charListLE, h1]
      · by_cases h2 : y.toNat < x.toNat
        · right
          simp [charListLE, h2]
        · rcases ih ys with h | h
          · left
            simp [charListLE, h1, h2, h]
          · right
            simp [charListLE, h1, h2, h]

theorem charListLE_trans {a b c : List Char} (h1 : charListLE a b = true)
    (h2 : charListLE b c = true) : charListLE a c = true := by
  induction a generalizing b c with
  | nil => rfl
  | cons x xs ih =>
    cases b with
    | nil => simp [charListLE] at h1
    | cons y ys =>
      cases c with
      | nil => simp [charListLE] at h2
      | cons z zs =>
        by_cases hxy : x.toNat < y.toNat
        · by_cases hyz : y.toNat < z.toNat
          · have hxz : x.toNat < z.toNat := by omega
            simp [charListLE, hxz]
          · by_cases hzy : z.toNat < y.toNat
            · simp [charListLE, hyz, hzy] at h2
            · have hxz : x.toNat < z.toNat := by omega
              simp [charListLE, hxz]
        · by_cases hyx : y.toNat < x.toNat
          · simp [charListLE, hxy, hyx] at h1
          · simp only [charListLE] at h1
            rw [if_neg hxy, if_neg hyx] at h1
            by_cases hyz : y.toNat < z.toNat
            · have hxz : x.toNat < z.toNat := by omega
              simp [charListLE, hxz]
            · by_cases hzy : z.toNat < y.toNat
              · simp [charListLE, hyz, hzy] at h2
              · simp only [charListLE] at h2
                rw [if_neg hyz, if_neg hzy] at h2
                have hxz : ¬ x.toNat < z.toNat := by omega
                have hzx : ¬ z.toNat < x.toNat := by omega
                simp only [charListLE]
                rw [if_neg hxz, if_neg hzx]
                exact ih h1 h2

theorem strLE_total (a b : String) : strLE a b = true ∨ strLE b a = true :=
  charListLE_total a.data b.data

theorem strLE_trans {a b c : String} (h1 : strLE a b = true)
    (h2 : strLE b c = true) : strLE a c = true :=
  charListLE_trans h1 h2

theorem mem_insertSorted {s t : String} {l : List String} :
    t ∈ insertSorted s l ↔ t = s ∨ t ∈ l := by
  induction l with
  | nil => simp [insertSorted]
  | cons u us ih =>
    by_cases h : strLE s u
    · simp [insertSorted, h]
    · simp [insertSorted, h, ih]
      tauto

theorem sorted_insertSorted {s : String} {l : List String}
    (h : l.Sorted (fun a b => strLE a b = true)) :
    (insertSorted s l).Sorted (fun a b => strLE a b = true) := by
  induction l with
  | nil => simp [insertSorted]
  | cons t ts ih =>
    rw [List.sorted_cons] at h
    by_cases hst : strLE s t
    · have hall : ∀ b ∈ t :: ts, strLE s b = true := by
        intro b hb
        rcases List.mem_cons.mp hb with hb | hb
        · exact hb ▸ hst
        · exact strLE_trans hst (h.1 b hb)
      simp only [insertSorted]
      rw [if_pos hst, List.sorted_cons]
      exact ⟨hall, List.sorted_cons.mpr h⟩
    · have hts : strLE t s = true := by
        rcases strLE_total s t with hh | hh
        · exact absurd hh hst
        · exact hh
      simp only [insertSorted]
      rw [if_neg hst, List.sorted_cons]
      constructor
      · intro b hb
        rcases mem_insertSorted.mp hb with hb | hb
        · exact hb ▸ hts
        · exact h.1 b hb
      · exact ih h.2

theorem sorted_sortStrings (l : List String) :
    (sortStrings l).Sorted (fun a b => strLE a b = true) := by
  induction l with
  | nil => simp [sortStrings]
  | cons s ss ih => exact sorted_insertSorted ih

theorem mem_sortStrings {s : String} {l : List String} :
    s ∈ sortStrings l ↔ s ∈ l := by
  induction l with
  | nil => simp [sortStrings]
  | cons t ts ih =>
    have h1 : sortStrings (t :: ts) = insertSorted t (sortStrings ts) := rfl
    rw [h1, mem_insertSorted, ih, List.mem_cons]

/-! ## Lemmas about `flatten_values` -/

theorem prop_prefix_ne_value (k : String) : "prop_" ++ k ≠ "value" := by
  intro h
  have h2 := congrArg String.data h
  rw [String.data_append] at h2
  simp at h2

theorem collapse_guard_of_noValue {fs : List (String × JVal)}
    (h : hasValueKeyFields fs = false) : collapse_guard fs = false := by
  cases fs with
  | nil => rfl
  | cons p rest =>
    obtain ⟨k, v⟩ := p
    simp [hasValueKeyFields] at h
    simp [collapse_guard, h.1]

theorem dictGet_value_of_noValue {fs : List (String × JVal)}
    (h : hasValueKeyFields fs = false) : dictGet fs "value" = none := by
  induction fs with
  | nil => rfl
  | cons p rest ih =>
    obtain ⟨k, v⟩ := p
    simp [hasValueKeyFields] at h
    simp [dictGet, fun he : k = "value" => h.1.1 he, ih h.2]

theorem expand_guard_of_noValue {fs : List (String × JVal)}
    (h : hasValueKeyFields fs = false) : expand_guard fs = false := by
  simp [expand_guard, dictGet_value_of_noValue h]

theorem flatten_obj_plain (fields : List (String × JVal))
    (h1 : collapse_guard fields = false) (h2 : expand_guard fields = false) :
    flatten_values (.obj fields) = .obj (flattenFields fields) := by
  simp only [flatten_values]
  rw [if_neg (by simp [h1]), if_neg (by simp [h2])]

mutual

theorem noValue_flatten (x : JVal) (h : hasValueKey x = false) :
    hasValueKey (flatten_values x) = false ∧
      flatten_values (flatten_values x) = flatten_values x :=
  match x, h with
  | .obj fs, h => by
    have hf : hasValueKeyFields fs = false := by
      simpa [hasValueKey] using h
    have hfl := noValue_flattenFields fs hf
    rw [flatten_obj_plain fs (collapse_guard_of_noValue hf)
      (expand_guard_of_noValue hf)]
    refine ⟨by simpa [hasValueKey] using hfl.1, ?_⟩
    rw [flatten_obj_plain _ (collapse_guard_of_noValue hfl.1)
      (expand_guard_of_noValue hfl.1), hfl.2]
  | .arr xs, h => by
    have hf : hasValueKeyList xs = false := by
      simpa [hasValueKey] using h
    have hfl := noValue_flattenList xs hf
    simp only [flatten_values]
    exact ⟨by simpa [hasValueKey] using hfl.1, by rw [hfl.2]⟩
  | .null, h => by simp [flatten_values, hasValueKey]
  | .bool b, h => by simp [flatten_values, hasValueKey]
  | .int n, h => by simp [flatten_values, hasValueKey]
  | .float q, h => by simp [flatten_values, hasValueKey]
  | .str s, h => by simp [flatten_values, hasValueKey]
termination_by sizeOf x
decreasing_by
  · simp <;> omega
  · simp <;> omega

theorem noValue_flattenFields (fs : List (String × JVal))
    (h : hasValueKeyFields fs = false) :
    hasValueKeyFields (flattenFields fs) = false ∧
      flattenFields (flattenFields fs) = flattenFields fs :=
  match fs, h with
  | [], _ => by simp [flattenFields, hasValueKeyFields]
  | (k, v) :: rest, h => by
    simp only [hasValueKeyFields, Bool.or_eq_false_iff] at h
    have hv := noValue_flatten v h.1.2
    have hr := noValue_flattenFields rest h.2
    simp only [flattenFields, hasValueKeyFields, Bool.or_eq_false_iff]
    exact ⟨⟨⟨h.1.1, hv.1⟩, hr.1⟩, by rw [hv.2, hr.2]⟩
termination_by sizeOf fs
decreasing_by
  · simp <;> omega
  · simp <;> omega

theorem noValue_flattenList (xs : List JVal)
    (h : hasValueKeyList xs = false) :
    hasValueKeyList (flattenList xs) = false ∧
      flattenList (flattenList xs) = flattenList xs :=
  match xs, h with
  | [], _ => by simp [flattenList, hasValueKeyList]
  | x :: rest, h => by
    simp only [hasValueKeyList, Bool.or_eq_false_iff] at h
    have hx := noValue_flatten x h.1
    have hr := noValue_flattenList rest h.2
    simp only [flattenList, hasValueKeyList, Bool.or_eq_false_iff]
    exact ⟨⟨hx.1, hr.1⟩, by rw [hx.2, hr.2]⟩
termination_by sizeOf xs
decreasing_by
  · simp <;> omega
  · simp <;> omega

end

theorem mem_keys_runMethods (f : String → Except String JVal)
    (base : List (String × JVal)) (ms : List String) (k : String) :
    k ∈ (runMethods f base ms).map Prod.fst ↔
      k ∈ base.map Prod.fst ∨ k ∈ ms := by
  induction ms generalizing base with
  | nil => simp [runMethods]
  | cons m rest ih =>
    have h1 : runMethods f base (m :: rest)
        = runMethods f (dictSet base m (safe_call (f m))) rest := rfl
    rw [h1, ih, mem_keys_dictSet, List.mem_cons]
    tauto

/-! ## Shape lemmas for the fetch pipeline -/

theorem fetch_full_fund_eq {p : Provider} {isin : String} (ms : List String)
    {u : Unit} {dp : JVal} (hb : p.fundBind isin = .ok u)
    (hdp : p.fundDataPoint isin = .ok dp) :
    fetch_full_fund p isin ms = .ok (.obj (runMethods (p.fundMethod isin)
      [("_class", .str "fund"), ("isin", .str isin),
       ("dataPoint", pyOr dp (.obj []))] ms)) := by
  simp [fetch_full_fund, hb, hdp, Bind.bind, Except.bind, Functor.map,
    Except.map, Pure.pure, Except.pure]

theorem fetch_full_fund_bind_error {p : Provider} {isin : String}
    (ms : List String) {e : String} (hb : p.fundBind isin = .error e) :
    fetch_full_fund p isin ms = .error e := by
  simp [fetch_full_fund, hb, Bind.bind, Except.bind, Functor.map,
    Except.map, Pure.pure, Except.pure]

theorem fetch_full_fund_dp_error {p : Provider} {isin : String}
    (ms : List String) {u : Unit} {e : String} (hb : p.fundBind isin = .ok u)
    (hdp : p.fundDataPoint isin = .error e) :
    fetch_full_fund p isin ms = .error e := by
  simp [fetch_full_fund, hb, hdp, Bind.bind, Except.bind, Functor.map,
    Except.map, Pure.pure, Except.pure]

theorem fetch_full_fund_cases (p : Provider) (isin : String) (ms : List String) :
    (∃ e, fetch_full_fund p isin ms = .error e) ∨
    (∃ dp, fetch_full_fund p isin ms = .ok (.obj (runMethods (p.fundMethod isin)
      [("_class", .str "fund"), ("isin", .str isin),
       ("dataPoint", pyOr dp (.obj []))] ms))) := by
  cases hb : p.fundBind isin with
  | error e => exact Or.inl ⟨e, fetch_full_fund_bind_error ms hb⟩
  | ok u =>
    cases hdp : p.fundDataPoint isin with
    | error e => exact Or.inl ⟨e, fetch_full_fund_dp_error ms hb hdp⟩
    | ok dp => exact Or.inr ⟨dp, fetch_full_fund_eq ms hb hdp⟩

theorem fetch_full_stock_eq {p : Provider} {isin : String} (ms : List String)
    {u : Unit} (hb : p.stockBind isin = .ok u) :
    fetch_full_stock p isin ms = .ok (.obj (runMethods (p.stockMethod isin)
      [("_class", .str "stock"), ("isin", .str isin)] ms)) := by
  simp [fetch_full_stock, hb, Bind.bind, Except.bind, Functor.map,
    Except.map, Pure.pure, Except.pure]

theorem fetch_full_stock_bind_error {p : Provider} {isin : String}
    (ms : List String) {e : String} (hb : p.stockBind isin = .error e) :
    fetch_full_stock p isin ms = .error e := by
  simp [fetch_full_stock, hb, Bind.bind, Except.bind, Functor.map,
    Except.map, Pure.pure, Except.pure]

theorem fetch_full_stock_cases (p : Provider) (isin : String) (ms : List String) :
    (∃ e, fetch_full_stock p isin ms = .error e) ∨
    fetch_full_stock p isin ms = .ok (.obj (runMethods (p.stockMethod isin)
      [("_class", .str "stock"), ("isin", .str isin)] ms)) := by
  cases hb : p.stockBind isin with
  | error e => exact Or.inl ⟨e, fetch_full_stock_bind_error ms hb⟩
  | ok u => exact Or.inr (fetch_full_stock_eq ms hb)

theorem fetch_reduced_fund_eq {p : Provider} {isin : String} {u : Unit}
    {dp : JVal} {fs2 : List (String × JVal)} (hb : p.fundBind isin = .ok u)
    (hdp : p.fundDataPoint isin = .ok dp)
    (hobj : pyOr dp (.obj []) = .obj fs2) :
    fetch_reduced_fund p isin = .ok (.obj (pyUpdate [("isin", .str isin)]
      (dictSet fs2 "source" (.str "fund")))) := by
  simp [fetch_reduced_fund, hb, hdp, hobj, Bind.bind, Except.bind,
    Functor.map, Except.map, Pure.pure, Except.pure]

theorem fetch_reduced_fund_cases (p : Provider) (isin : String) :
    (∃ e, fetch_reduced_fund p isin = .error e) ∨
    (∃ dp fs2, p.fundDataPoint isin = .ok dp ∧ pyOr dp (.obj []) = .obj fs2 ∧
      fetch_reduced_fund p isin = .ok (.obj (pyUpdate [("isin", .str isin)]
        (dictSet fs2 "source" (.str "fund"))))) := by
  cases hb : p.fundBind isin with
  | error e =>
    exact Or.inl ⟨e, by
      simp [fetch_reduced_fund, hb, Bind.bind, Except.bind, Functor.map,
        Except.map, Pure.pure, Except.pure]⟩
  | ok u =>
    cases hdp : p.fundDataPoint isin with
    | error e =>
      exact Or.inl ⟨e, by
        simp [fetch_reduced_fund, hb, hdp, Bind.bind, Except.bind,
          Functor.map, Except.map, Pure.pure, Except.pure]⟩
    | ok dp =>
      cases hobj : pyOr dp (.obj []) with
      | obj fs2 =>
        exact Or.inr ⟨dp, fs2, rfl, hobj, fetch_reduced_fund_eq hb hdp hobj⟩
      | null =>
        exact Or.inl ⟨"TypeError: object does not support item assignment", by
          simp [fetch_reduced_fund, hb, hdp, hobj, Bind.bind, Except.bind,
            Functor.map, Except.map, Pure.pure, Except.pure]⟩
      | bool b =>
        exact Or.inl ⟨"TypeError: object does not support item assignment", by
          simp [fetch_reduced_fund, hb, hdp, hobj, Bind.bind, Except.bind,
            Functor.map, Except.map, Pure.pure, Except.pure]⟩
      | int n =>
        exact Or.inl ⟨"TypeError: object does not support item assignment", by
          simp [fetch_reduced_fund, hb, hdp, hobj, Bind.bind, Except.bind,
            Functor.map, Except.map, Pure.pure, Except.pure]⟩
      | float q =>
        exact Or.inl ⟨"TypeError: object does not support item assignment", by
          simp [fetch_reduced_fund, hb, hdp, hobj, Bind.bind, Except.bind,
            Functor.map, Except.map, Pure.pure, Except.pure]⟩
      | str s =>
        exact Or.inl ⟨"TypeError: object does not support item assignment", by
          simp [fetch_reduced_fund, hb, hdp, hobj, Bind.bind, Except.bind,
            Functor.map, Except.map, Pure.pure, Except.pure]⟩
      | arr xs =>
        exact Or.inl ⟨"TypeError: object does not support item assignment", by
          simp [fetch_reduced_fund, hb, hdp, hobj, Bind.bind, Except.bind,
            Functor.map, Except.map, Pure.pure, Except.pure]⟩

theorem fetch_reduced_stock_cases (p : Provider) (isin : String) :
    (∃ e, fetch_reduced_stock p isin = .error e) ∨
    (∃ nm, fetch_reduced_stock p isin = .ok (.obj [("isin", .str isin),
      ("name", nm), ("source", .str "stock")])) := by
  cases hb : p.stockBind isin with
  | error e =>
    exact Or.inl ⟨e, by
      simp [fetch_reduced_stock, hb, Bind.bind, Except.bind, Functor.map,
        Except.map, Pure.pure, Except.pure]⟩
  | ok u =>
    cases hov : p.stockOverview isin with
    | error e =>
      exact Or.inl ⟨e, by
        simp [fetch_reduced_stock, hb, hov, Bind.bind, Except.bind,
          Functor.map, Except.map, Pure.pure, Except.pure]⟩
    | ok ov =>
      refine Or.inr ⟨match pyOr ov (.obj []) with
        | .obj fields => (dictGet fields "name").getD .null
        | _ => .null, ?_⟩
      simp [fetch_reduced_stock, hb, hov, Bind.bind, Except.bind,
        Functor.map, Except.map, Pure.pure, Except.pure]

/-- Every record produced by `fetch_info_for_isin` is a dict carrying an
`isin` key, in both modes, whatever the provider does. -/
theorem fetch_info_isRecord (p : Provider) (isin : String) (full : Bool)
    (cfg : MethodsCfg) :
    ∃ fs, fetch_info_for_isin p isin full cfg = .obj fs ∧
      (dictGet fs "isin").isSome = true := by
  cases full with
  | true =>
    rcases fetch_full_fund_cases p isin cfg.fund_methods with ⟨e, hf⟩ | ⟨dp, hf⟩
    · rcases fetch_full_stock_cases p isin cfg.stock_methods with ⟨e2, hs⟩ | hs
      · refine ⟨[("isin", .str isin), ("_class", .str "unknown"),
          ("_error", .str e2)], ?_, ?_⟩
        · simp [fetch_info_for_isin, hf, hs]
        · simp [dictGet]
      · refine ⟨runMethods (p.stockMethod isin)
          [("_class", .str "stock"), ("isin", .str isin)]
          cfg.stock_methods, ?_, ?_⟩
        · simp [fetch_info_for_isin, hf, hs]
        · rw [dictGet_isSome_iff, mem_keys_runMethods]
          left
          simp
    · refine ⟨runMethods (p.fundMethod isin)
        [("_class", .str "fund"), ("isin", .str isin),
         ("dataPoint", pyOr dp (.obj []))] cfg.fund_methods, ?_, ?_⟩
      · simp [fetch_info_for_isin, hf]
      · rw [dictGet_isSome_iff, mem_keys_runMethods]
        left
        simp
  | false =>
    rcases fetch_reduced_fund_cases p isin with ⟨e, hf⟩ | ⟨dp, fs2, hdp, hpy, hf⟩
    · rcases fetch_reduced_stock_cases p isin with ⟨e2, hs⟩ | ⟨nm, hs⟩
      · refine ⟨[("isin", .str isin), ("error", .str e2),
          ("source", .str "unknown")], ?_, ?_⟩
        · simp [fetch_info_for_isin, hf, hs]
        · simp [dictGet]
      · refine ⟨[("isin", .str isin), ("name", nm),
          ("source", .str "stock")], ?_, ?_⟩
        · simp [fetch_info_for_isin, hf, hs]
        · simp [dictGet]
    · refine ⟨pyUpdate [("isin", .str isin)]
        (dictSet fs2 "source" (.str "fund")), ?_, ?_⟩
      · simp [fetch_info_for_isin, hf]
      · rw [dictGet_isSome_iff, mem_keys_pyUpdate]
        left
        simp

/-! ## Claim C3 — one record per identifier -/

/-- C3: for every non-empty identifier list the pipeline emits exactly one
record per identifier, in input order, whatever the provider does;
`fetch_info_for_isin` is total by construction (its Lean type returns a
value, never an exception) and every record is a dict with an `isin`
key. -/
theorem fetch_pipeline_one_record_per_isin (p : Provider) (isins : List String)
    (full : Bool) (cfg : MethodsCfg) (hne : isins ≠ []) :
    (mainResults p isins full cfg).length = isins.length ∧
    (∀ i, (mainResults p isins full cfg).get? i =
      (isins.get? i).map (fun isin => fetch_info_for_isin p isin full cfg)) ∧
    (∀ r ∈ mainResults p isins full cfg, ∃ fs, r = .obj fs ∧
      (dictGet fs "isin").isSome = true) := by
  refine ⟨by simp [mainResults], ?_, ?_⟩
  · intro i
    simp [mainResults]
  · intro r hr
    simp only [mainResults, List.mem_map] at hr
    obtain ⟨isin, hmem, heq⟩ := hr
    obtain ⟨fs, h1, h2⟩ := fetch_info_isRecord p isin full cfg
    exact ⟨fs, heq.symm.trans h1, h2⟩

/-- Witness for C3 at a concrete identifier list and the all-failing
provider. -/
theorem fetch_pipeline_one_record_per_isin_witness :
    (mainResults provider_down ["I1", "I2"] true ⟨[], []⟩).length
        = (["I1", "I2"] : List String).length ∧
    (∀ i, (mainResults provider_down ["I1", "I2"] true ⟨[], []⟩).get? i =
      ((["I1", "I2"] : List String).get? i).map
        (fun isin => fetch_info_for_isin provider_down isin true ⟨[], []⟩)) ∧
    (∀ r ∈ mainResults provider_down ["I1", "I2"] true ⟨[], []⟩,
      ∃ fs, r = .obj fs ∧ (dictGet fs "isin").isSome = true) :=
  fetch_pipeline_one_record_per_isin provider_down ["I1", "I2"] true ⟨[], []⟩
    (by simp)

/-! ## Claim C1 — flattening idempotence -/

/-- C1, counterexample: the claim `flatten_values (flatten_values x) =
flatten_values x` for every representable input is false.  The collapse
rule returns the wrapped payload without flattening it, so the nested
wrapper `obj [value ↦ obj [value ↦ 5]]` flattens once to `obj [value ↦ 5]`
and twice to `5`. -/
theorem flatten_values_not_idempotent_counterexample :
    flatten_values (flatten_values (.obj [("value", .obj [("value", .int 5)])])) ≠
      flatten_values (.obj [("value", .obj [("value", .int 5)])]) := by
  simp [flatten_values, collapse_guard, dictGet]

/-- C1, amended: `flatten_values` is idempotent on every input that
contains no dict with a `value` key (`hasValueKey x = false`); on such
inputs neither the collapse nor the expand rule ever fires, and the
elementwise recursion is a fixed point after one pass. -/
theorem flatten_values_idempotent_of_no_value_key (x : JVal)
    (h : hasValueKey x = false) :
    flatten_values (flatten_values x) = flatten_values x :=
  (noValue_flatten x h).2

/-- Witness for C1's amended theorem at a concrete nested input. -/
theorem flatten_values_idempotent_of_no_value_key_witness :
    hasValueKey (.obj [("a", .int 1), ("b", .arr [.str "s",
        .obj [("c", .null)]])]) = false ∧
      flatten_values (flatten_values (.obj [("a", .int 1), ("b", .arr [.str "s",
        .obj [("c", .null)]])])) =
        flatten_values (.obj [("a", .int 1), ("b", .arr [.str "s",
          .obj [("c", .null)]])]) :=
  ⟨by simp [hasValueKey, hasValueKeyFields, hasValueKeyList],
   flatten_values_idempotent_of_no_value_key _
     (by simp [hasValueKey, hasValueKeyFields, hasValueKeyList])⟩

/-! ## Claim C2 — the expand rule -/

/-- C2, counterexample: the claim that
`flatten_values (obj [value ↦ v, properties ↦ obj [k ↦ pv]])` contains the
field `value` mapped to `v` itself fails when `v` is not a fixed point of
flattening: for `v = obj [value ↦ 5]` the result's `value` field is the
flattened `5`, not `v`. -/
theorem flatten_expand_raw_value_counterexample :
    flatten_values (.obj [("value", .obj [("value", .int 5)]),
        ("properties", .obj [("k", .int 0)])]) =
      .obj [("value", .int 5), ("prop_k", .int 0)] ∧
    JVal.int 5 ≠ JVal.obj [("value", .int 5)] := by
  constructor
  · simp [flatten_values, collapse_guard, expand_guard, props_is_dict,
      dictGet, propsOf, flattenFields, pyUpdate, dictSet, List.filter]
  · simp

/-- C2, amended: the expand rule maps the `value` field to
`flatten_values v` (not the raw `v`) and the single property to a field
`prop_<k>` holding `flatten_values pv`.  Holds for every `v`, `k`, `pv`. -/
theorem flatten_expand_spec (v pv : JVal) (k : String) :
    flatten_values (.obj [("value", v), ("properties", .obj [(k, pv)])]) =
      .obj [("value", flatten_values v), ("prop_" ++ k, flatten_values pv)] := by
  have hc : collapse_guard [("value", v), ("properties", .obj [(k, pv)])] = false := by
    simp [collapse_guard]
  have he : expand_guard [("value", v), ("properties", .obj [(k, pv)])] = true := by
    simp [expand_guard, props_is_dict, dictGet]
  simp only [flatten_values]
  rw [if_neg (by simp [hc]), if_pos (by simp [he])]
  simp [flattenFields, propsOf, dictGet, pyUpdate, dictSet, List.filter,
    Ne.symm (prop_prefix_ne_value k)]

/-! ## Claim C4 — exactly one kind discriminant -/

/-- C4, counterexample: the claim that no record ever carries both
discriminants fails — in reduced mode the provider's reference-lookup
response is merged into the record verbatim, so a response with its own
`_class` entry yields a record holding both `_class` and `source`. -/
theorem fetch_discriminant_both_counterexample :
    fetch_info_for_isin provider_class_inject "X" false ⟨[], []⟩ =
      .obj [("isin", .str "X"), ("_class", .str "evil"),
            ("source", .str "fund")] ∧
    (dictGet [("isin", .str "X"), ("_class", .str "evil"),
      ("source", .str "fund")] "_class").isSome = true ∧
    (dictGet [("isin", .str "X"), ("_class", .str "evil"),
      ("source", .str "fund")] "source").isSome = true :=
  ⟨rfl, rfl, rfl⟩

/-- C4, amended: in full mode every record has `_class` in
`fund`/`stock`/`unknown` and no `source` field, provided the method
catalog names neither `_class` nor `source`; in reduced mode every record
has `source` in `fund`/`stock`/`unknown`, and has no `_class` field
provided the reduced reference-lookup response (a Python dict, so with
distinct keys) contains no `_class` key of its own. -/
theorem fetch_discriminant_spec (p : Provider) (isin : String)
    (cfg : MethodsCfg) :
    (("_class" ∉ cfg.fund_methods ∧ "source" ∉ cfg.fund_methods ∧
      "_class" ∉ cfg.stock_methods ∧ "source" ∉ cfg.stock_methods) →
      ∃ fs, fetch_info_for_isin p isin true cfg = .obj fs ∧
        (dictGet fs "_class" = some (.str "fund") ∨
         dictGet fs "_class" = some (.str "stock") ∨
         dictGet fs "_class" = some (.str "unknown")) ∧
        dictGet fs "source" = none) ∧
    ((∀ dp fs2, p.fundDataPoint isin = .ok dp →
        pyOr dp (.obj []) = .obj fs2 →
        (fs2.map Prod.fst).Nodup ∧ "_class" ∉ fs2.map Prod.fst) →
      ∃ fs, fetch_info_for_isin p isin false cfg = .obj fs ∧
        (dictGet fs "source" = some (.str "fund") ∨
         dictGet fs "source" = some (.str "stock") ∨
         dictGet fs "source" = some (.str "unknown")) ∧
        dictGet fs "_class" = none) := by
  constructor
  · rintro ⟨h1, h2, h3, h4⟩
    rcases fetch_full_fund_cases p isin cfg.fund_methods with ⟨e, hf⟩ | ⟨dp, hf⟩
    · rcases fetch_full_stock_cases p isin cfg.stock_methods with ⟨e2, hs⟩ | hs
      · refine ⟨[("isin", .str isin), ("_class", .str "unknown"),
          ("_error", .str e2)], ?_, ?_, ?_⟩
        · simp [fetch_info_for_isin, hf, hs]
        · right; right
          simp [dictGet]
        · simp [dictGet]
      · refine ⟨runMethods (p.stockMethod isin)
          [("_class", .str "stock"), ("isin", .str isin)]
          cfg.stock_methods, ?_, ?_, ?_⟩
        · simp [fetch_info_for_isin, hf, hs]
        · right; left
          rw [dictGet_runMethods_not_mem _ _ h3]
          simp [dictGet]
        · rw [dictGet_runMethods_not_mem _ _ h4]
          simp [dictGet]
    · refine ⟨runMethods (p.fundMethod isin)
        [("_class", .str "fund"), ("isin", .str isin),
         ("dataPoint", pyOr dp (.obj []))] cfg.fund_methods, ?_, ?_, ?_⟩
      · simp [fetch_info_for_isin, hf]
      · left
        rw [dictGet_runMethods_not_mem _ _ h1]
        simp [dictGet]
      · rw [dictGet_runMethods_not_mem _ _ h2]
        simp [dictGet]
  · intro hdp
    rcases fetch_reduced_fund_cases p isin with ⟨e, hf⟩ | ⟨dp, fs2, hdpEq, hpy, hf⟩
    · rcases fetch_reduced_stock_cases p isin with ⟨e2, hs⟩ | ⟨nm, hs⟩
      · refine ⟨[("isin", .str isin), ("error", .str e2),
          ("source", .str "unknown")], ?_, ?_, ?_⟩
        · simp [fetch_info_for_isin, hf, hs]
        · right; right
          simp [dictGet]
        · simp [dictGet]
      · refine ⟨[("isin", .str isin), ("name", nm),
          ("source", .str "stock")], ?_, ?_, ?_⟩
        · simp [fetch_info_for_isin, hf, hs]
        · right; left
          simp [dictGet]
        · simp [dictGet]
    · obtain ⟨hnd, hnc⟩ := hdp dp fs2 hdpEq hpy
      refine ⟨pyUpdate [("isin", .str isin)]
        (dictSet fs2 "source" (.str "fund")), ?_, ?_, ?_⟩
      · simp [fetch_info_for_isin, hf]
      · left
        exact dictGet_pyUpdate_mem _ (nodup_keys_dictSet _ _ _ hnd)
          (dictGet_mem (dictGet_dictSet_self fs2 "source" (.str "fund")))
      · have hcm : "_class" ∉ (dictSet fs2 "source"
            (.str "fund")).map Prod.fst := by
          rw [mem_keys_dictSet]
          rintro (h | h)
          · exact hnc h
          · simp at h
        rw [dictGet_pyUpdate_not_mem _ hcm]
        simp [dictGet]

/-- Witness for C4's amended theorem at a concrete provider and catalog,
covering both modes. -/
theorem fetch_discriminant_spec_witness :
    (∃ fs, fetch_info_for_isin provider_ok "X" true ⟨["A", "B"], ["C"]⟩ =
        .obj fs ∧
      (dictGet fs "_class" = some (.str "fund") ∨
       dictGet fs "_class" = some (.str "stock") ∨
       dictGet fs "_class" = some (.str "unknown")) ∧
      dictGet fs "source" = none) ∧
    (∃ fs, fetch_info_for_isin provider_ok "X" false ⟨["A", "B"], ["C"]⟩ =
        .obj fs ∧
      (dictGet fs "source" = some (.str "fund") ∨
       dictGet fs "source" = some (.str "stock") ∨
       dictGet fs "source" = some (.str "unknown")) ∧
      dictGet fs "_class" = none) := by
  constructor
  · exact (fetch_discriminant_spec provider_ok "X" ⟨["A", "B"], ["C"]⟩).1
      (by refine ⟨?_, ?_, ?_, ?_⟩ <;> decide)
  · refine (fetch_discriminant_spec provider_ok "X" ⟨["A", "B"], ["C"]⟩).2 ?_
    intro dp fs2 h1 h2
    injection h1 with h1
    subst h1
    have h2b : JVal.obj [("name", JVal.str "F")] = .obj fs2 := h2
    injection h2b with h2b
    subst h2b
    decide

/-! ## Claim C5 — per-method failure isolation -/

/-- C5: while assembling one full-mode record, a failing catalog operation
`A` is stored as the inline error-marker dict and an unrelated succeeding
operation `B` is stored as its result, for the fund and the stock
assembly alike; `safe_call` is total by construction and never raises. -/
theorem per_method_failure_isolation (p : Provider) (isin : String)
    (msF msS : List String) (A B eA : String) (vB : JVal) :
    (p.fundMethod isin A = .error eA → p.fundMethod isin B = .ok vB →
     A ∈ msF → B ∈ msF →
     ∀ u dp, p.fundBind isin = .ok u → p.fundDataPoint isin = .ok dp →
      ∃ fs, fetch_full_fund p isin msF = .ok (.obj fs) ∧
        dictGet fs A = some (.obj [("_error", .str eA)]) ∧
        dictGet fs B = some vB) ∧
    (p.stockMethod isin A = .error eA → p.stockMethod isin B = .ok vB →
     A ∈ msS → B ∈ msS →
     ∀ u, p.stockBind isin = .ok u →
      ∃ fs, fetch_full_stock p isin msS = .ok (.obj fs) ∧
        dictGet fs A = some (.obj [("_error", .str eA)]) ∧
        dictGet fs B = some vB) := by
  constructor
  · intro hA hB hAm hBm u dp hb hdp
    refine ⟨_, fetch_full_fund_eq msF hb hdp, ?_, ?_⟩
    · rw [dictGet_runMethods_mem _ _ hAm, hA]
      rfl
    · rw [dictGet_runMethods_mem _ _ hBm, hB]
      rfl
  · intro hA hB hAm hBm u hb
    refine ⟨_, fetch_full_stock_eq msS hb, ?_, ?_⟩
    · rw [dictGet_runMethods_mem _ _ hAm, hA]
      rfl
    · rw [dictGet_runMethods_mem _ _ hBm, hB]
      rfl

/-- Witness for C5 at the concrete provider whose method `A` raises and
whose method `B` succeeds. -/
theorem per_method_failure_isolation_witness :
    ∃ fs, fetch_full_fund provider_ok "X" ["A", "B"] = .ok (.obj fs) ∧
      dictGet fs "A" = some (.obj [("_error", .str "boom")]) ∧
      dictGet fs "B" = some (.int 1) :=
  (per_method_failure_isolation provider_ok "X" ["A", "B"] ["A", "B"]
    "A" "B" "boom" (.int 1)).1 rfl rfl (by decide) (by decide) ()
    (.obj [("name", .str "F")]) rfl rfl

/-! ## Claim C6 — both bindings fail in full mode -/

/-- C6: in full mode, when the fund binding raises and the stock binding
raises too, the record is exactly
`isin ↦ isin, _class ↦ unknown, _error ↦ <stock failure message>`; the
fund-side message is swallowed and nothing is raised to the caller. -/
theorem both_bindings_fail_unknown_record (p : Provider) (isin : String)
    (cfg : MethodsCfg) (e1 e2 : String) (h1 : p.fundBind isin = .error e1)
    (h2 : p.stockBind isin = .error e2) :
    fetch_info_for_isin p isin true cfg =
      .obj [("isin", .str isin), ("_class", .str "unknown"),
            ("_error", .str e2)] := by
  rw [show fetch_info_for_isin p isin true cfg =
    (match fetch_full_fund p isin cfg.fund_methods with
      | .ok r => r
      | .error _ =>
        match fetch_full_stock p isin cfg.stock_methods with
        | .ok r => r
        | .error e =>
          .obj [("isin", .str isin), ("_class", .str "unknown"),
                ("_error", .str e)]) from rfl,
    fetch_full_fund_bind_error cfg.fund_methods h1,
    fetch_full_stock_bind_error cfg.stock_methods h2]

/-- Witness for C6 at the all-failing provider: the surfaced message is
the stock-binding one. -/
theorem both_bindings_fail_unknown_record_witness :
    fetch_info_for_isin provider_down "X" true ⟨[], []⟩ =
      .obj [("isin", .str "X"), ("_class", .str "unknown"),
            ("_error", .str "stock bind failed")] :=
  both_bindings_fail_unknown_record provider_down "X" ⟨[], []⟩
    "fund bind failed" "stock bind failed" rfl rfl


/-! ## Claim C7 — rebasing and the zero guard -/

/-- C7, counterexample: the claim that the comparison view omits every
series whose first value is zero is false for the fund-vs-benchmark chart
(`streamlit_app.py` lines 332-336), which rebases with no zero guard and
performs the division; only the relative-performance chart (lines 305-324)
omits the series. -/
theorem rebase_zero_guard_counterexample :
    rebaseSeries [0, 1] = none ∧ benchSeries [0, 1] ≠ none := by
  constructor
  · norm_num [rebaseSeries]
  · simp [benchSeries]

/-- C7, amended: rebasing divides every value by the first one and scales
by 100; the relative-performance chart (`rebaseSeries`) omits a series
whose first value is zero, while the fund-vs-benchmark chart
(`benchSeries`) performs the division without the guard; in particular
`[10, 20, 5]` rebases to `[100, 200, 50]`. -/
theorem rebase_spec :
    rebaseSeries [10, 20, 5] = some [100, 200, 50] ∧
    (∀ ps : List ℚ, rebaseSeries (0 :: ps) = none) ∧
    (∀ (p0 : ℚ) (ps : List ℚ), p0 ≠ 0 →
      rebaseSeries (p0 :: ps) =
        some ((p0 :: ps).map (fun pr => pr / p0 * 100))) ∧
    (∀ (p0 : ℚ) (ps : List ℚ),
      benchSeries (p0 :: ps) =
        some ((p0 :: ps).map (fun pr => pr / p0 * 100))) := by
  refine ⟨by norm_num [rebaseSeries], ?_, ?_, ?_⟩
  · intro ps
    simp [rebaseSeries]
  · intro p0 ps h
    simp [rebaseSeries, h]
  · intro p0 ps
    simp [benchSeries]

/-- Witness for C7's amended theorem: the guarded division at a nonzero
first value. -/
theorem rebase_spec_witness :
    (2 : ℚ) ≠ 0 ∧
    rebaseSeries [2, 1] = some ([2, 1].map (fun pr => pr / 2 * 100)) :=
  ⟨by norm_num, rebase_spec.2.2.1 2 [1] (by norm_num)⟩

/-! ## Claim C8 — CSV schema union -/

theorem mem_foldl_append {rows : List (List (String × JVal))}
    {acc : List String} {f : String} :
    f ∈ rows.foldl (fun acc r => acc ++ r.map Prod.fst) acc ↔
      f ∈ acc ∨ ∃ r ∈ rows, f ∈ r.map Prod.fst := by
  induction rows generalizing acc with
  | nil => simp
  | cons r rs ih =>
    have h1 : (r :: rs).foldl (fun acc r => acc ++ r.map Prod.fst) acc
        = rs.foldl (fun acc r => acc ++ r.map Prod.fst)
            (acc ++ r.map Prod.fst) := rfl
    rw [h1, ih, List.mem_append]
    simp
    tauto

/-- C8: the CSV writer's header is the duplicate-free union of all
records' top-level keys, sorted in the code-point lexicographic order of
Python's `sorted`; there is one output row per record, each row is the
per-field lookup into that record, a field absent from a record gives the
empty cell (`none`); nothing fails on disjoint field sets — in particular
`[[a ↦ 1], [b ↦ 2]]` yields header `[a, b]` and rows `[1, empty]` and
`[empty, 2]`. -/
theorem write_csv_schema_union (rows : List (List (String × JVal))) :
    ((write_csv rows).1.Sorted (fun a b => strLE a b = true)) ∧
    (∀ f, f ∈ (write_csv rows).1 ↔ ∃ r ∈ rows, f ∈ r.map Prod.fst) ∧
    ((write_csv rows).2.length = rows.length) ∧
    ((write_csv rows).2 = rows.map (fun r =>
      (write_csv rows).1.map (fun f => dictGet r f))) ∧
    (∀ r ∈ rows, ∀ f, f ∉ r.map Prod.fst → dictGet r f = none) ∧
    write_csv [[("a", .int 1)], [("b", .int 2)]] =
      (["a", "b"], [[some (.int 1), none], [none, some (.int 2)]]) := by
  refine ⟨sorted_sortStrings _, ?_, by simp [write_csv], rfl, ?_, rfl⟩
  · intro f
    rw [show (write_csv rows).1 = csvFields rows from rfl]
    unfold csvFields
    rw [mem_sortStrings, List.mem_dedup, mem_foldl_append]
    simp
  · intro r hr f hf
    exact (dictGet_eq_none_iff r f).mpr hf

/-- Witness for C8 at the two disjoint single-field records. -/
theorem write_csv_schema_union_witness :
    dictGet [("a", JVal.int 1)] "b" = none ∧
    write_csv [[("a", .int 1)], [("b", .int 2)]] =
      (["a", "b"], [[some (.int 1), none], [none, some (.int 2)]]) :=
  ⟨(write_csv_schema_union [[("a", .int 1)], [("b", .int 2)]]).2.2.2.2.1
      [("a", JVal.int 1)] (by simp) "b" (by simp),
   (write_csv_schema_union [[("a", .int 1)], [("b", .int 2)]]).2.2.2.2.2⟩

/-! ## Claim C9 — time-series reconstruction -/

theorem mem_foldr_rowPoints {rows : List JVal} {pt : TSPoint} :
    pt ∈ rows.foldr (fun r acc => rowPoints r ++ acc) [] ↔
      ∃ r ∈ rows, pt ∈ rowPoints r := by
  induction rows with
  | nil => simp
  | cons r rs ih =>
    have h1 : (r :: rs).foldr (fun r acc => rowPoints r ++ acc) []
        = rowPoints r ++ rs.foldr (fun r acc => rowPoints r ++ acc) [] := rfl
    rw [h1, List.mem_append, ih]
    simp

theorem rowPoints_spec {r : JVal} {pt : TSPoint} (h : pt ∈ rowPoints r) :
    ∃ fields qk v, r = .obj fields ∧ qk ∈ qKeys ∧ qk.1 = pt.q ∧
      dictGet fields "yr" = some (.int pt.yr) ∧
      dictGet fields qk.2 = some v ∧ toNumericCoerce v = some pt.price := by
  cases r with
  | obj fields =>
    rw [show rowPoints (.obj fields) = (match dictGet fields "yr" with
      | some (.int y) =>
        qKeys.filterMap (fun qk =>
          match dictGet fields qk.2 with
          | none => none
          | some .null => none
          | some v => (toNumericCoerce v).map (fun pr => ⟨y, qk.1, pr⟩))
      | _ => []) from rfl] at h
    cases hyr : dictGet fields "yr" with
    | none => rw [hyr] at h; simp at h
    | some yv =>
      cases yv with
      | int y =>
        rw [hyr] at h
        simp only [List.mem_filterMap] at h
        obtain ⟨qk, hqk, hf⟩ := h
        cases hv : dictGet fields qk.2 with
        | none => rw [hv] at hf; simp at hf
        | some v =>
          cases v with
          | null => rw [hv] at hf; simp at hf
          | bool b =>
            rw [hv] at hf
            obtain ⟨pr, hnum, hpt⟩ := Option.map_eq_some'.mp hf
            subst hpt
            exact ⟨fields, qk, .bool b, rfl, hqk, rfl, hyr, hv, hnum⟩
          | int n =>
            rw [hv] at hf
            obtain ⟨pr, hnum, hpt⟩ := Option.map_eq_some'.mp hf
            subst hpt
            exact ⟨fields, qk, .int n, rfl, hqk, rfl, hyr, hv, hnum⟩
          | float q =>
            rw [hv] at hf
            obtain ⟨pr, hnum, hpt⟩ := Option.map_eq_some'.mp hf
            subst hpt
            exact ⟨fields, qk, .float q, rfl, hqk, rfl, hyr, hv, hnum⟩
          | str st =>
            rw [hv] at hf
            simp [toNumericCoerce] at hf
          | arr xs =>
            rw [hv] at hf
            simp [toNumericCoerce] at hf
          | obj ofs =>
            rw [hv] at hf
            simp [toNumericCoerce] at hf
      | null => rw [hyr] at h; simp at h
      | bool b => rw [hyr] at h; simp at h
      | float q => rw [hyr] at h; simp at h
      | str st => rw [hyr] at h; simp at h
      | arr xs => rw [hyr] at h; simp at h
      | obj ofs => rw [hyr] at h; simp at h
  | null => simp [rowPoints] at h
  | bool b => simp [rowPoints] at h
  | int n => simp [rowPoints] at h
  | float q => simp [rowPoints] at h
  | str st => simp [rowPoints] at h
  | arr xs => simp [rowPoints] at h

theorem price_series_shape {cur : JVal} {out : List TSPoint}
    (h : price_series_from_graphdata cur = some out) :
    ∃ cf gf rows, cur = .obj cf ∧
      dictGet cf "graphData" = some (.obj gf) ∧
      dictGet gf "data" = some (.arr rows) ∧ rows ≠ [] ∧
      out = List.insertionSort tsLE
        (rows.foldr (fun r acc => rowPoints r ++ acc) []) ∧
      rows.foldr (fun r acc => rowPoints r ++ acc) [] ≠ [] := by
  cases cur with
  | obj cf =>
    cases hgd : dictGet cf "graphData" with
    | none => simp [price_series_from_graphdata, hgd] at h
    | some gv =>
      cases gv with
      | obj gf =>
        cases hdata : dictGet gf "data" with
        | none => simp [price_series_from_graphdata, hgd, hdata] at h
        | some dv =>
          cases dv with
          | arr rows =>
            by_cases hemp : rows.isEmpty
            · simp [price_series_from_graphdata, hgd, hdata, hemp] at h
            · by_cases hrec : (rows.foldr
                  (fun r acc => rowPoints r ++ acc) []).isEmpty
              · simp [price_series_from_graphdata, hgd, hdata, hemp,
                  hrec] at h
              · refine ⟨cf, gf, rows, rfl, hgd, hdata,
                  by simpa [List.isEmpty_iff] using hemp, ?_, 
                  by simpa [List.isEmpty_iff] using hrec⟩
                have h2 : price_series_from_graphdata (.obj cf)
                    = some (List.insertionSort tsLE
                      (rows.foldr (fun r acc => rowPoints r ++ acc) [])) := by
                  simp [price_series_from_graphdata, hgd, hdata, hemp, hrec]
                rw [h2] at h
                exact (Option.some_inj.mp h).symm
          | null => simp [price_series_from_graphdata, hgd, hdata] at h
          | bool b => simp [price_series_from_graphdata, hgd, hdata] at h
          | int n => simp [price_series_from_graphdata, hgd, hdata] at h
          | float q => simp [price_series_from_graphdata, hgd, hdata] at h
          | str st => simp [price_series_from_graphdata, hgd, hdata] at h
          | obj o2 => simp [price_series_from_graphdata, hgd, hdata] at h
      | null => simp [price_series_from_graphdata, hgd] at h
      | bool b => simp [price_series_from_graphdata, hgd] at h
      | int n => simp [price_series_from_graphdata, hgd] at h
      | float q => simp [price_series_from_graphdata, hgd] at h
      | str st => simp [price_series_from_graphdata, hgd] at h
      | arr xs => simp [price_series_from_graphdata, hgd] at h
  | null => simp [price_series_from_graphdata] at h
  | bool b => simp [price_series_from_graphdata] at h
  | int n => simp [price_series_from_graphdata] at h
  | float q => simp [price_series_from_graphdata] at h
  | str st => simp [price_series_from_graphdata] at h
  | arr xs => simp [price_series_from_graphdata] at h

/-- C9: quarter `k` of year `y` maps to the fixed quarter-end date table,
missing or non-numeric entries are dropped (every emitted point provably
comes from a present, numeric quarter entry of a row with an int year),
the series is sorted ascending by date and non-empty, and the concrete
input of the spec yields exactly the two points 2020-03-31 ↦ 10 and
2020-06-30 ↦ 20 in that order. -/
theorem price_series_spec :
    price_series_from_graphdata (.obj [("graphData", .obj [("data", .arr
        [.obj [("yr", .int 2020), ("naQ1", .int 10),
          ("naQ2", .int 20)]])])]) =
      some [⟨2020, 1, 10⟩, ⟨2020, 2, 20⟩] ∧
    ([⟨2020, 1, 10⟩, ⟨2020, 2, 20⟩] : List TSPoint).map dateOf =
      ["2020-03-31", "2020-06-30"] ∧
    (monthDay 1 = "03-31" ∧ monthDay 2 = "06-30" ∧
     monthDay 3 = "09-30" ∧ monthDay 4 = "12-31") ∧
    (∀ cur out, price_series_from_graphdata cur = some out →
      out ≠ [] ∧ out.Sorted tsLE) ∧
    (∀ cur out, price_series_from_graphdata cur = some out →
      ∀ pt ∈ out, ∃ r fields qk v,
        pt ∈ rowPoints r ∧ r = .obj fields ∧ qk ∈ qKeys ∧ qk.1 = pt.q ∧
        dictGet fields "yr" = some (.int pt.yr) ∧
        dictGet fields qk.2 = some v ∧
        toNumericCoerce v = some pt.price) := by
  refine ⟨by decide, rfl, ⟨rfl, rfl, rfl, rfl⟩, ?_, ?_⟩
  · intro cur out h
    obtain ⟨cf, gf, rows, hcur, hgd, hdata, hrne, hout, hrecne⟩ :=
      price_series_shape h
    constructor
    · intro hnil
      have hperm := List.perm_insertionSort tsLE
        (rows.foldr (fun r acc => rowPoints r ++ acc) [])
      rw [← hout, hnil] at hperm
      exact hrecne (List.perm_nil.mp hperm.symm)
    · rw [hout]
      exact List.sorted_insertionSort tsLE _
  · intro cur out h pt hpt
    obtain ⟨cf, gf, rows, hcur, hgd, hdata, hrne, hout, hrecne⟩ :=
      price_series_shape h
    rw [hout] at hpt
    have hperm := List.perm_insertionSort tsLE
      (rows.foldr (fun r acc => rowPoints r ++ acc) [])
    have hpt2 := hperm.mem_iff.mp hpt
    obtain ⟨r, hr, hptr⟩ := mem_foldr_rowPoints.mp hpt2
    obtain ⟨fields, qk, v, hre, hqk, hq, hyr, hv, hnum⟩ := rowPoints_spec hptr
    exact ⟨r, fields, qk, v, hptr, hre, hqk, hq, hyr, hv, hnum⟩

/-- Witness for C9's general conjuncts at the spec's concrete input. -/
theorem price_series_spec_witness :
    ([⟨2020, 1, 10⟩, ⟨2020, 2, 20⟩] : List TSPoint) ≠ [] ∧
    ([⟨2020, 1, 10⟩, ⟨2020, 2, 20⟩] : List TSPoint).Sorted tsLE :=
  price_series_spec.2.2.2.1 (.obj [("graphData", .obj [("data", .arr
    [.obj [("yr", .int 2020), ("naQ1", .int 10), ("naQ2", .int 20)]])])])
    [⟨2020, 1, 10⟩, ⟨2020, 2, 20⟩] (by decide)

/-! ## Claim C10 — reduced-mode merge precedence -/

/-- C10: on reduced-mode fund success the record is the provider mapping
merged over the base `isin` entry with provider keys taking precedence:
when the provider response has no `isin` key the record's `isin` equals
the input identifier, and there is a provider response with an `isin` key
for which the record's `isin` is the provider-supplied value instead. -/
theorem reduced_fund_merge_precedence :
    (∀ (p : Provider) (isin : String) (cfg : MethodsCfg) (dp : JVal)
        (fs2 : List (String × JVal)) (u : Unit),
      p.fundBind isin = .ok u → p.fundDataPoint isin = .ok dp →
      pyOr dp (.obj []) = .obj fs2 → "isin" ∉ fs2.map Prod.fst →
      ∃ fs, fetch_info_for_isin p isin false cfg = .obj fs ∧
        dictGet fs "isin" = some (.str isin)) ∧
    (∃ fs, fetch_info_for_isin provider_isin_override "INPUT" false
        ⟨[], []⟩ = .obj fs ∧
      dictGet fs "isin" = some (.str "OTHER") ∧
      JVal.str "OTHER" ≠ JVal.str "INPUT") := by
  constructor
  · intro p isin cfg dp fs2 u hb hdp hobj hni
    refine ⟨pyUpdate [("isin", .str isin)]
      (dictSet fs2 "source" (.str "fund")), ?_, ?_⟩
    · simp [fetch_info_for_isin, fetch_reduced_fund_eq hb hdp hobj]
    · have hnm : "isin" ∉ (dictSet fs2 "source"
          (.str "fund")).map Prod.fst := by
        rw [mem_keys_dictSet]
        rintro (hh | hh)
        · exact hni hh
        · simp at hh
      rw [dictGet_pyUpdate_not_mem _ hnm]
      simp [dictGet]
  · exact ⟨[("isin", .str "OTHER"), ("source", .str "fund")], rfl, rfl,
      by simp⟩

/-- Witness for C10's universal part at a provider whose response has no
`isin` key. -/
theorem reduced_fund_merge_precedence_witness :
    ∃ fs, fetch_info_for_isin provider_ok "X" false ⟨[], []⟩ = .obj fs ∧
      dictGet fs "isin" = some (.str "X") :=
  reduced_fund_merge_precedence.1 provider_ok "X" ⟨[], []⟩
    (.obj [("name", .str "F")]) [("name", .str "F")] () rfl rfl rfl
    (by simp)

end Mstar
